import Mathlib

/-!
Verification of the conversation checkpoint store and long-term memory engine
of the `vanilla` chat-agent repository.

The development shallowly embeds the relevant source code:

* `src/src/services/sns.ts` — class `DynamoDBSaver` (`getTuple`, `list`, `put`,
  `putWrites`).  DynamoDB tables are modelled as lists of typed items; a
  `Query` sorts the partition by its sort key (DynamoDB orders string keys by
  UTF-8 bytes, which coincides with code-point order), applies the key
  condition, then `Limit`, then the `FilterExpression` — in that order, as
  DynamoDB does.  `PutItem`/`BatchWriteItem` replace the item with the same
  primary key.  Expression placeholders (`:name`) must be defined in
  `ExpressionAttributeValues` and every supplied value must be referenced,
  otherwise the request is rejected with a validation error, as DynamoDB does.
* `src/unnamed/part_000` — SQL function `cleanup_checkpoints_by_age`.
* `src/src/memory.ts` — class `LongTermMemoryManager`.

Conventions of the embedding:

* JavaScript numbers are modelled exactly: embedding entries as `ℚ` (rounding
  of IEEE doubles is idealised away), and the results of arithmetic that can
  produce `NaN`/`±Infinity` by the inductive `JSNum`.  `Math.sqrt` is an
  external primitive and is passed as a function parameter `sqrt : ℚ → ℚ`
  (`Math.sqrt 0 = 0` becomes the hypothesis `sqrt 0 = 0` where needed).
* Timestamps (`Date.now()` milliseconds, ISO strings compared via `getTime()`)
  are modelled as a `now : Nat` parameter; ISO-string order is isomorphic to
  the numeric order used here.
* The serializer (`serde.dumpsTyped` / `loadsTyped`) supplied by the
  orchestrator is opaque; operations take the dump/load functions they use as
  parameters.  `loadsTyped` applied to a missing (undefined) attribute cannot
  recover a value, which the load parameter models by returning `none` on a
  `none` input.
* The embedding provider (`embeddings.embedQuery`) is a parameter
  `embed : String → List ℚ`.
* The items of the `CheckpointWrites` table carry their remaining attributes
  as an explicit attribute list, because `putWrites` and `getTuple` disagree
  on the name of the value attribute and that disagreement is only visible at
  the attribute-map level.
-/

namespace Vanilla

/-! ## Generic helpers: association lists, JS string primitives, sorting -/

/-- Lookup in an association list with string keys (JS object property read). -/
def getKey? {β : Type} (k : String) : List (String × β) → Option β
  | [] => none
  | (k₁, v) :: rest => if k₁ = k then some v else getKey? k rest

/-- JS object property assignment: update the value in place if the key
exists (preserving insertion order), otherwise append the key at the end. -/
def setKey {β : Type} (k : String) (v : β) : List (String × β) → List (String × β)
  | [] => [(k, v)]
  | (k₁, v₁) :: rest => if k₁ = k then (k, v) :: rest else (k₁, v₁) :: setKey k v rest

/-- Code-point comparison of characters as naturals. -/
def charNat (c : Char) : Nat := c.toNat

/-- Lexicographic strict order on character lists (UTF-8 byte order of the
encoded strings equals code-point lexicographic order). -/
def strLtChars : List Char → List Char → Bool
  | [], [] => false
  | [], _ :: _ => true
  | _ :: _, [] => false
  | a :: as, b :: bs =>
    if charNat a < charNat b then true
    else if charNat b < charNat a then false
    else strLtChars as bs

/-- Lexicographic non-strict order on character lists. -/
def strLeChars : List Char → List Char → Bool
  | [], _ => true
  | _ :: _, [] => false
  | a :: as, b :: bs =>
    if charNat a < charNat b then true
    else if charNat b < charNat a then false
    else strLeChars as bs

/-- `a < b` on strings as DynamoDB compares sort keys. -/
def strLt (a b : String) : Bool := strLtChars a.data b.data

/-- `a ≤ b` on strings as DynamoDB compares sort keys. -/
def strLe (a b : String) : Bool := strLeChars a.data b.data

/-- Insert `x` into a list sorted descending by `key` (before the first
element whose key is not above `x`'s). -/
def insertDescBy {α : Type} (key : α → String) (x : α) : List α → List α
  | [] => [x]
  | y :: ys => if strLe (key y) (key x) then x :: y :: ys else y :: insertDescBy key x ys

/-- Sort a list descending by a string key (how a DynamoDB query with
`ScanIndexForward: false` returns a partition). -/
def sortDescBy {α : Type} (key : α → String) (l : List α) : List α :=
  l.foldr (insertDescBy key) []

/-- Insert `x` into a list sorted ascending by `key`. -/
def insertAscBy {α : Type} (key : α → String) (x : α) : List α → List α
  | [] => [x]
  | y :: ys => if strLe (key x) (key y) then x :: y :: ys else y :: insertAscBy key x ys

/-- Sort a list ascending by a string key (a DynamoDB query with the default
`ScanIndexForward: true`). -/
def sortAscBy {α : Type} (key : α → String) (l : List α) : List α :=
  l.foldr (insertAscBy key) []

/-- The characters before the first occurrence of `sep`; models
`s.split(sep)[0]` of JavaScript `String.split` with a string separator. -/
def takeUntilSep (sep : List Char) : List Char → List Char
  | [] => []
  | c :: cs => if sep.isPrefixOf (c :: cs) then [] else c :: takeUntilSep sep cs

/-- The `':::'` separator of `DynamoDBSaver`. -/
def sepChars : List Char := ':' :: ':' :: ':' :: []

/-! ## DynamoDBSaver (src/src/services/sns.ts) -/

/-- One item of the `Checkpoints` table (partition key `thread_id`,
sort key `checkpoint_id`). -/
structure CPItem (S : Type) where
  thread_id : String
  checkpoint_ns : String
  checkpoint_id : String
  parent_checkpoint_id : Option String
  type : String
  checkpoint : S
  metadata : S
deriving DecidableEq

/-- One item of the `CheckpointWrites` table (partition key
`thread_id_checkpoint_id_checkpoint_ns`, sort key `task_index`).  The
attributes beyond the keys, the channel and the type tag are kept as an
explicit attribute map. -/
structure WriteItem (S : Type) where
  pk : String
  sk : String
  channel : String
  type : String
  attrs : List (String × S)
deriving DecidableEq

/-- A checkpoint value as the saver sees it: an id plus opaque state. -/
structure Checkpoint (V : Type) where
  id : String
  data : V
deriving DecidableEq

/-- The durable state of the saver: both tables. -/
structure SaverState (S : Type) where
  checkpoints : List (CPItem S)
  checkpointWrites : List (WriteItem S)
deriving DecidableEq

/-- The tuple returned by `getTuple`: `config` is
`(thread_id, checkpoint_ns, checkpoint_id)`; each pending write is
`(taskId, channel, loaded value)`. -/
structure CheckpointTuple (V : Type) where
  config : String × String × String
  checkpoint : Checkpoint V
  metadata : V
  parentConfig : Option (String × String × String)
  pendingWrites : List (String × String × Option V)
deriving DecidableEq

/-- `PutItem` on the `Checkpoints` table: replace the item with the same
primary key. -/
def putCheckpointItem {S : Type} (it : CPItem S) (tbl : List (CPItem S)) : List (CPItem S) :=
  tbl.filter (fun c => !(c.thread_id = it.thread_id ∧ c.checkpoint_id = it.checkpoint_id : Bool)) ++ [it]

/-- `PutItem` on the `CheckpointWrites` table. -/
def putWriteItem {S : Type} (it : WriteItem S) (tbl : List (WriteItem S)) : List (WriteItem S) :=
  tbl.filter (fun w => !(w.pk = it.pk ∧ w.sk = it.sk : Bool)) ++ [it]

/-- The partition of `thread_id`, ordered by descending `checkpoint_id`
(`ScanIndexForward: false`). -/
def queryThreadDesc {S : Type} (tbl : List (CPItem S)) (t : String) : List (CPItem S) :=
  sortDescBy (fun c => c.checkpoint_id) (tbl.filter (fun c => c.thread_id = t))

/-- `getWritePk`: `[thread_id, checkpoint_id, checkpoint_ns].join(':::')`. -/
def getWritePk (thread_id checkpoint_id checkpoint_ns : String) : String :=
  thread_id ++ ":::" ++ checkpoint_id ++ ":::" ++ checkpoint_ns

/-- `getWriteSk`: `[taskId, index].join(':::')`. -/
def getWriteSk (taskId : String) (index : Nat) : String :=
  taskId ++ ":::" ++ toString index

/-- The tuple `getTuple` builds from a found checkpoint item: its
configuration, the loaded checkpoint and metadata, the lazily resolvable
parent reference, and the pending writes of the checkpoint read back in
`task_index` order — each write's task id is the part of `task_index` before
`':::'` and its value is `loadsTyped` of the item's `value` attribute. -/
def tupleOfItem {V S : Type} (loadsCp : String → S → Checkpoint V) (loadsMd : String → S → V)
    (loadsW : String → Option S → Option V) (writesTbl : List (WriteItem S))
    (item : CPItem S) : CheckpointTuple V :=
  let threadCheckpointNS := getWritePk item.thread_id item.checkpoint_id item.checkpoint_ns
  let writeItems :=
    sortAscBy (fun w => w.sk) (writesTbl.filter (fun w => w.pk = threadCheckpointNS))
  { config := (item.thread_id, item.checkpoint_ns, item.checkpoint_id)
    checkpoint := loadsCp item.type item.checkpoint
    metadata := loadsMd item.type item.metadata
    parentConfig := item.parent_checkpoint_id.map
      (fun p => (item.thread_id, item.checkpoint_ns, p))
    pendingWrites := writeItems.map (fun w =>
      (String.mk (takeUntilSep sepChars w.sk.data), w.channel,
        loadsW w.type (getKey? "value" w.attrs))) }

/-- `DynamoDBSaver.getTuple`.  A present, non-empty `checkpoint_id` selects
the `GetCommand` path (point lookup by the full key); otherwise the query
path finds the newest item of the whole thread (`Limit: 1`, descending by
`checkpoint_id`), to which the `checkpoint_ns` filter expression — only
attached when `checkpoint_ns` is truthy — is applied afterwards, since
DynamoDB applies `FilterExpression` after `Limit`.  A missing item yields
`none` (not-found, no error). -/
def getTuple {V S : Type} (loadsCp : String → S → Checkpoint V) (loadsMd : String → S → V)
    (loadsW : String → Option S → Option V) (st : SaverState S)
    (thread_id checkpoint_ns : String) (checkpoint_id : Option String) :
    Option (CheckpointTuple V) :=
  let item? : Option (CPItem S) :=
    if checkpoint_id.getD "" ≠ "" then
      (st.checkpoints.filter
        (fun c => c.thread_id = thread_id ∧ c.checkpoint_id = checkpoint_id.getD "")).head?
    else
      (((queryThreadDesc st.checkpoints thread_id).take 1).filter
        (fun c => !(checkpoint_ns ≠ "" : Bool) || (c.checkpoint_ns = checkpoint_ns : Bool))).head?
  item?.map (tupleOfItem loadsCp loadsMd loadsW st.checkpointWrites)

/-- A tuple yielded by `list` (no pending writes are attached there). -/
structure ListedTuple (V : Type) where
  config : String × String × String
  checkpoint : Checkpoint V
  metadata : V
  parentConfig : Option (String × String × String)
deriving DecidableEq

/-- `DynamoDBSaver.list`.  When `before` is supplied the key condition
references the placeholder `:before_checkpoint_id` while the attribute-value
map binds `:beforeCheckpointId`; the query therefore carries an undefined
placeholder (and an unused value) and DynamoDB rejects it. -/
def listCheckpoints {V S : Type} (loadsCp : String → S → Checkpoint V)
    (loadsMd : String → S → V) (st : SaverState S) (thread_id : String)
    (limit : Option Nat) (before : Option String) :
    Except String (List (ListedTuple V)) :=
  let exprValues : List (String × String) :=
    (":thread_id", thread_id) ::
      (match before with
        | some b => [(":beforeCheckpointId", b)]
        | none => [])
  let referenced : List String :=
    ":thread_id" ::
      (match before with
        | some _ => [":before_checkpoint_id"]
        | none => [])
  if !(referenced.all (fun r => (getKey? r exprValues).isSome)) then
    .error "ValidationException: An expression attribute value used in expression is not defined"
  else if !(exprValues.all (fun kv => referenced.contains kv.1)) then
    .error "ValidationException: Value provided in ExpressionAttributeValues unused in expressions"
  else
    let keyCondOk : CPItem S → Bool := fun c =>
      match before with
      | none => true
      | some _ =>
        match getKey? ":before_checkpoint_id" exprValues with
        | some b => strLt c.checkpoint_id b
        | none => false
    let items := (queryThreadDesc st.checkpoints thread_id).filter keyCondOk
    let items :=
      match limit with
      | some n => items.take n
      | none => items
    .ok (items.map (fun item =>
      { config := (item.thread_id, item.checkpoint_ns, item.checkpoint_id)
        checkpoint := loadsCp item.type item.checkpoint
        metadata := loadsMd item.type item.metadata
        parentConfig := item.parent_checkpoint_id.map
          (fun p => (item.thread_id, item.checkpoint_ns, p)) }))

/-- `DynamoDBSaver.put`.  Dumps checkpoint and metadata, rejects a type-tag
mismatch before writing anything, otherwise writes exactly one record and
returns the configuration of the new checkpoint. -/
def put {V S : Type} (dumpsCp : Checkpoint V → String × S) (dumpsMd : V → String × S)
    (st : SaverState S) (thread_id checkpoint_ns : String)
    (configCheckpointId : Option String) (checkpoint : Checkpoint V) (metadata : V) :
    Except String (SaverState S × (String × String × String)) :=
  let d₁ := dumpsCp checkpoint
  let d₂ := dumpsMd metadata
  if d₁.1 ≠ d₂.1 then
    .error "Failed to serialize checkpoint and metadata to the same type."
  else
    .ok
      ({ st with
          checkpoints := putCheckpointItem
            { thread_id := thread_id
              checkpoint_ns := checkpoint_ns
              checkpoint_id := checkpoint.id
              parent_checkpoint_id := configCheckpointId
              type := d₁.1
              checkpoint := d₁.2
              metadata := d₂.2 } st.checkpoints },
        (thread_id, checkpoint_ns, checkpoint.id))

/-- The batches of at most 25 items submitted by `putWrites`
(`slice(i, i + 25)` for `i = 0, 25, 50, …`). -/
def batchesOf {α : Type} (l : List α) : List (List α) :=
  (List.range ((l.length + 24) / 25)).map (fun b => (l.drop (25 * b)).take 25)

/-- `DynamoDBSaver.putWrites`.  Rejects a missing/empty `checkpoint_id`;
otherwise each `(channel, value)` write becomes an item whose serialized
value is stored under the attribute name `valu`, and the batches are
submitted (all item keys are distinct, so the fan-out order is immaterial
and the batches are applied in order here). -/
def putWrites {V S : Type} (dumpsW : V → String × S) (st : SaverState S)
    (thread_id checkpoint_ns : String) (checkpoint_id : Option String)
    (taskId : String) (writes : List (String × V)) : Except String (SaverState S) :=
  if checkpoint_id.getD "" = "" then .error "Missing checkpoint_id"
  else
    let cid := checkpoint_id.getD ""
    let items : List (WriteItem S) := writes.enum.map (fun iw =>
      { pk := getWritePk thread_id cid checkpoint_ns
        sk := getWriteSk taskId iw.1
        channel := iw.2.1
        type := (dumpsW iw.2.2).1
        attrs := [("valu", (dumpsW iw.2.2).2)] })
    .ok { st with
            checkpointWrites :=
              (batchesOf items).foldl
                (fun tbl batch => batch.foldl (fun tb it => putWriteItem it tb) tbl)
                st.checkpointWrites }

/-! ## SQL retention job `cleanup_checkpoints_by_age` (src/unnamed/part_000) -/

/-- A row of the SQL `checkpoints` table.  `created_at` is the optional
`metadata->>'created_at'` value in milliseconds since the epoch. -/
structure SqlCheckpoint where
  thread_id : String
  checkpoint_id : String
  created_at : Option Nat
deriving DecidableEq

/-- A row of the SQL `checkpoint_writes` table (only the thread key matters
to the cleanup). -/
structure SqlWrite where
  thread_id : String
  idx : Nat
deriving DecidableEq

/-- A row of the optional SQL `checkpoint_blobs` table. -/
structure SqlBlob where
  thread_id : String
  key : String
deriving DecidableEq

/-- The SQL database state.  `checkpoint_blobs = none` models the table not
existing (the `undefined_table` exception branch). -/
structure SqlDB where
  checkpoints : List SqlCheckpoint
  checkpoint_writes : List SqlWrite
  checkpoint_blobs : Option (List SqlBlob)
deriving DecidableEq

/-- `COALESCE(to_timestamp((metadata->>'created_at')::BIGINT / 1000),
to_timestamp(0))` in seconds: a missing value is the epoch, otherwise the
millisecond value divided by 1000 (SQL `BIGINT` division truncates). -/
def effTs (c : SqlCheckpoint) : Nat := c.created_at.getD 0 / 1000

/-- A thread collected into `old_threads`: it has a checkpoint row and no
checkpoint row of it has an effective timestamp at or after the cutoff. -/
def oldThread (db : SqlDB) (cutoff : Nat) (t : String) : Bool :=
  (db.checkpoints.any (fun c => c.thread_id = t)) &&
    !(db.checkpoints.any (fun c₂ => (c₂.thread_id = t : Bool) && decide (cutoff ≤ effTs c₂)))

/-- `cleanup_checkpoints_by_age(retention_days)`: computes the cutoff
`NOW() - retention_days` (in seconds), deletes the checkpoint writes, the
blob rows (when the table exists) and the checkpoints of every old thread,
and returns the deletion counts `(checkpoints, writes, blobs)`. -/
def cleanupCheckpointsByAge (db : SqlDB) (now retentionDays : Nat) :
    SqlDB × Nat × Nat × Nat :=
  let cutoff := now - retentionDays * 86400
  let old : String → Bool := oldThread db cutoff
  let wrDeleted := db.checkpoint_writes.countP (fun w => old w.thread_id)
  let wrKept := db.checkpoint_writes.filter (fun w => !(old w.thread_id))
  let blobs : Option (List SqlBlob) × Nat :=
    match db.checkpoint_blobs with
    | none => (none, 0)
    | some bl => (some (bl.filter (fun b => !(old b.thread_id))),
        bl.countP (fun b => old b.thread_id))
  let cpDeleted := db.checkpoints.countP (fun c => old c.thread_id)
  let cpKept := db.checkpoints.filter (fun c => !(old c.thread_id))
  (⟨cpKept, wrKept, blobs.1⟩, cpDeleted, wrDeleted, blobs.2)

/-! ## LongTermMemoryManager (src/src/memory.ts) -/

/-- JavaScript number results of the similarity arithmetic: a finite value,
`NaN`, or a signed infinity.  Signed zero is not distinguished. -/
inductive JSNum where
  | num : ℚ → JSNum
  | nan : JSNum
  | pinf : JSNum
  | ninf : JSNum
deriving DecidableEq

/-- IEEE-style addition. -/
def jadd : JSNum → JSNum → JSNum
  | .num x, .num y => .num (x + y)
  | .nan, _ => .nan
  | _, .nan => .nan
  | .pinf, .ninf => .nan
  | .ninf, .pinf => .nan
  | .pinf, _ => .pinf
  | _, .pinf => .pinf
  | .ninf, _ => .ninf
  | _, .ninf => .ninf

/-- IEEE-style subtraction. -/
def jsub : JSNum → JSNum → JSNum
  | .num x, .num y => .num (x - y)
  | .nan, _ => .nan
  | _, .nan => .nan
  | .pinf, .pinf => .nan
  | .ninf, .ninf => .nan
  | .pinf, _ => .pinf
  | _, .pinf => .ninf
  | .ninf, _ => .ninf
  | _, .ninf => .pinf

/-- IEEE-style multiplication. -/
def jmul : JSNum → JSNum → JSNum
  | .num x, .num y => .num (x * y)
  | .nan, _ => .nan
  | _, .nan => .nan
  | .pinf, .num x => if x = 0 then .nan else if 0 < x then .pinf else .ninf
  | .num x, .pinf => if x = 0 then .nan else if 0 < x then .pinf else .ninf
  | .ninf, .num x => if x = 0 then .nan else if 0 < x then .ninf else .pinf
  | .num x, .ninf => if x = 0 then .nan else if 0 < x then .ninf else .pinf
  | .pinf, .pinf => .pinf
  | .pinf, .ninf => .ninf
  | .ninf, .pinf => .ninf
  | .ninf, .ninf => .pinf

/-- IEEE-style division; in particular `0 / 0 = NaN` and `x / 0 = ±∞` for
finite `x ≠ 0`. -/
def jdiv : JSNum → JSNum → JSNum
  | .num x, .num y =>
    if y = 0 then (if x = 0 then .nan else if 0 < x then .pinf else .ninf)
    else .num (x / y)
  | .nan, _ => .nan
  | _, .nan => .nan
  | .num _, .pinf => .num 0
  | .num _, .ninf => .num 0
  | .pinf, .num y => if 0 ≤ y then .pinf else .ninf
  | .ninf, .num y => if 0 ≤ y then .ninf else .pinf
  | .pinf, _ => .nan
  | .ninf, _ => .nan

/-- `Math.sqrt` lifted to `JSNum`; the behaviour on finite non-negative
values is the supplied `sqrt` parameter. -/
def jsqrt (sqrt : ℚ → ℚ) : JSNum → JSNum
  | .num x => if x < 0 then .nan else .num (sqrt x)
  | .nan => .nan
  | .pinf => .pinf
  | .ninf => .nan

/-- A stored personal memory. -/
structure PersonalMemory where
  id : String
  content : String
  category : String
  timestamp : Nat
  embedding : List ℚ
deriving DecidableEq

/-- A stored relationship interaction. -/
structure RelationshipMemory where
  id : String
  content : String
  sentiment : String
  timestamp : Nat
  embedding : List ℚ
deriving DecidableEq

/-- The per-(user, agent) relationship bucket. -/
structure Relationship where
  userName : String
  botName : String
  interactions : List RelationshipMemory
  dynamics : List String
  milestones : List String
deriving DecidableEq

/-- A stored event memory. -/
structure EventMemory where
  id : String
  content : String
  participants : List String
  importance : ℚ
  timestamp : Nat
  embedding : List ℚ
deriving DecidableEq

/-- The per-user personal record: a JS object from category names to entry
arrays (arbitrary keys can be added beyond the four initial ones). -/
abbrev PersonalRecord := List (String × List PersonalMemory)

/-- The in-memory long-term store. -/
structure LongTermMemory where
  personal : List (String × PersonalRecord)
  relationships : List (String × Relationship)
  events : List EventMemory
  preferences : List (String × String)
deriving DecidableEq

/-- The record created for a user on first store:
`{ facts: [], traits: [], preferences: [], history: [] }`. -/
def emptyPersonalRecord : PersonalRecord :=
  [("facts", []), ("traits", []), ("preferences", []), ("history", [])]

/-- The four category names enumerated by `searchMemories` and
`cleanupOldMemories`. -/
def fixedCategories : List String := ["facts", "traits", "preferences", "history"]

/-- The empty store a manager starts from. -/
def emptyLTM : LongTermMemory := ⟨[], [], [], []⟩

/-- `toLowerCase` (character-wise; identical to JS on the ASCII content at
hand). -/
def jsToLower (s : String) : String := String.mk (s.data.map Char.toLower)

/-- Single pass collecting maximal non-whitespace runs; `acc` is the current
run, reversed. -/
def wsTokensGo : List Char → List Char → List (List Char)
  | [], acc => if acc.isEmpty then [] else [acc.reverse]
  | c :: cs, acc =>
    if c.isWhitespace then
      if acc.isEmpty then wsTokensGo cs [] else acc.reverse :: wsTokensGo cs []
    else wsTokensGo cs (c :: acc)

/-- The whitespace tokens of a character list: its maximal runs of
non-whitespace characters. -/
def wsTokens (cs : List Char) : List (List Char) := wsTokensGo cs []

/-- JavaScript `s.split(/\s+/)`: the maximal non-whitespace runs, with an
empty leading (trailing) element when the string starts (ends) with
whitespace, and `[""]` for the empty string. -/
def jsSplitWs (s : String) : List String :=
  match s.data with
  | [] => [""]
  | c :: cs =>
    let toks := (wsTokens (c :: cs)).map String.mk
    let toks := if c.isWhitespace then "" :: toks else toks
    if ((c :: cs).getLastD c).isWhitespace then toks ++ [""] else toks

/-- `calculateSimilarity`: 1 on syntactically equal inputs, otherwise the
word-set Jaccard index of the whitespace-split words. -/
def calculateSimilarity (text1 text2 : String) : ℚ :=
  let words1 := jsSplitWs text1
  let words2 := jsSplitWs text2
  if text1 = text2 then 1
  else
    let set1 := words1.dedup
    let set2 := words2.dedup
    let inter := set1.filter (fun x => set2.contains x)
    let union := (set1 ++ set2).dedup
    (inter.length : ℚ) / (union.length : ℚ)

/-- `compressEmbedding`: keep every 8th dimension (`i = 0, 8, 16, … <
length`, i.e. `i = 8k` for `k < ⌈length / 8⌉`). -/
def compressEmbedding (embedding : List ℚ) : List ℚ :=
  (List.range ((embedding.length + 7) / 8)).map (fun k => embedding.getD (8 * k) 0)

/-- `decompressEmbedding`: each retained value is followed by 7 linear
interpolants toward the next retained value, the last retained value by 7
copies of itself. -/
def decompressEmbedding : List ℚ → List ℚ
  | [] => []
  | [x] => x :: List.replicate 7 x
  | x :: y :: rest =>
    (x :: (List.range 7).map (fun j : Nat => x + ((y - x) / 8) * ((j : ℚ) + 1)))
      ++ decompressEmbedding (y :: rest)

/-- One iteration of the `cosineSimilarity` loop at index `i`: accumulate
the dot product and both square norms (an out-of-range read of `b` is
`undefined`, i.e. `NaN` in the arithmetic). -/
def cosineStep (a b : List ℚ) (acc : JSNum × JSNum × JSNum) (i : Nat) :
    JSNum × JSNum × JSNum :=
  let ai : JSNum := .num (a.getD i 0)
  let bi : JSNum := match b[i]? with
    | some y => .num y
    | none => .nan
  (jadd acc.1 (jmul ai bi), jadd acc.2.1 (jmul ai ai), jadd acc.2.2 (jmul bi bi))

/-- `cosineSimilarity`: one loop over the indices of `a` accumulating the dot
product and both square norms, then `dot / (sqrt normA * sqrt normB)`. -/
def cosineSimilarity (sqrt : ℚ → ℚ) (a b : List ℚ) : JSNum :=
  let s := (List.range a.length).foldl (cosineStep a b) (.num 0, .num 0, .num 0)
  jdiv s.1 (jmul (jsqrt sqrt s.2.1) (jsqrt sqrt s.2.2))

/-- Stable insertion sort: `x` goes before the first `y` with `le x y`.  With
`le` derived from a JS comparator (`true` on ties and `NaN`) this is the
ES2019 stable `Array.prototype.sort`. -/
def insStable {α : Type} (le : α → α → Bool) (x : α) : List α → List α
  | [] => [x]
  | y :: ys => if le x y then x :: y :: ys else y :: insStable le x ys

/-- Stable sort by a boolean "may precede" relation. -/
def stableSortBy {α : Type} (le : α → α → Bool) (l : List α) : List α :=
  l.foldr (insStable le) []

/-- A search hit; the optional fields are only set for the memory kinds that
carry them. -/
structure MemorySearchResult where
  type : String
  category : String
  content : String
  similarity : JSNum
  timestamp : Nat
  id : String
  sentiment : Option String
  importance : Option ℚ
deriving DecidableEq

/-- The comparator `(a, b) => b.similarity - a.similarity` turned into "may
`a` stay before `b`": true when the comparator is non-positive or `NaN`
(ES2019 treats a `NaN` comparator value as `+0`). -/
def similarityBefore (a b : MemorySearchResult) : Bool :=
  match jsub b.similarity a.similarity with
  | .num x => decide (x ≤ 0)
  | .nan => true
  | .pinf => false
  | .ninf => true

/-- JavaScript `String.prototype.includes`. -/
def hasSubstr : List Char → List Char → Bool
  | hay, needle =>
    match hay with
    | [] => needle.isEmpty
    | _ :: cs => needle.isPrefixOf hay || hasSubstr cs needle

/-- `storePersonalMemory(userName, fact, category = 'general')`.  Returns the
result string (`'duplicate'` or the new id), the new store, and how many
embeddings were computed on this call. -/
def storePersonalMemory (embed : String → List ℚ) (now : Nat) (st : LongTermMemory)
    (userName fact : String) (category : String := "general") :
    String × LongTermMemory × Nat :=
  let personal₁ :=
    if (getKey? userName st.personal).isNone then
      setKey userName emptyPersonalRecord st.personal
    else st.personal
  let userMemory := (getKey? userName personal₁).getD emptyPersonalRecord
  let categoryArray := (getKey? category userMemory).getD []
  let isDuplicate := categoryArray.any (fun existing =>
    decide (calculateSimilarity (jsToLower existing.content) (jsToLower fact) > 8 / 10))
  if isDuplicate then ("duplicate", { st with personal := personal₁ }, 0)
  else
    let embedding := embed fact
    let personalMemory : PersonalMemory :=
      { id := toString now
        content := fact
        category := category
        timestamp := now
        embedding := compressEmbedding embedding }
    let arr₁ := categoryArray ++ [personalMemory]
    let arr₂ :=
      if arr₁.length > 10 then
        (stableSortBy (fun a b => b.timestamp ≤ a.timestamp) arr₁).take 10
      else arr₁
    (toString now,
      { st with personal := setKey userName (setKey category arr₂ userMemory) personal₁ },
      1)

/-- `storeRelationshipMemory(userName, botName, interaction,
sentiment = 'neutral')`. -/
def storeRelationshipMemory (embed : String → List ℚ) (now : Nat) (st : LongTermMemory)
    (userName botName interaction : String) (sentiment : String := "neutral") :
    String × LongTermMemory :=
  let relationshipKey := userName ++ "-" ++ botName
  let relationships₁ :=
    if (getKey? relationshipKey st.relationships).isNone then
      setKey relationshipKey
        { userName := userName, botName := botName
          interactions := [], dynamics := [], milestones := [] } st.relationships
    else st.relationships
  let rel := (getKey? relationshipKey relationships₁).getD
    { userName := userName, botName := botName
      interactions := [], dynamics := [], milestones := [] }
  let relationshipMemory : RelationshipMemory :=
    { id := toString now
      content := interaction
      sentiment := sentiment
      timestamp := now
      embedding := compressEmbedding (embed interaction) }
  let interactions₁ := rel.interactions ++ [relationshipMemory]
  let interactions₂ := if interactions₁.length > 20 then interactions₁.drop 1 else interactions₁
  (toString now,
    { st with relationships :=
        setKey relationshipKey { rel with interactions := interactions₂ } relationships₁ })

/-- The personal-memory section of `searchMemories`: only runs when a user
name is given and that user has a record, and only enumerates the four fixed
category names. -/
def personalSearchResults (sqrt : ℚ → ℚ) (st : LongTermMemory) (queryEmbedding : List ℚ)
    (userName : Option String) : List MemorySearchResult :=
  match userName with
  | none => []
  | some u =>
    match getKey? u st.personal with
    | none => []
    | some personal =>
      (fixedCategories.map (fun category =>
        ((getKey? category personal).getD []).map (fun m =>
          { type := "personal"
            category := category
            content := m.content
            similarity := cosineSimilarity sqrt queryEmbedding (decompressEmbedding m.embedding)
            timestamp := m.timestamp
            id := m.id
            sentiment := none
            importance := none : MemorySearchResult }))).flatten

/-- The relationship section of `searchMemories`: buckets whose composite
key contains the user name as a substring (all buckets when no user given). -/
def relationshipSearchResults (sqrt : ℚ → ℚ) (st : LongTermMemory) (queryEmbedding : List ℚ)
    (userName : Option String) : List MemorySearchResult :=
  (st.relationships.map (fun kv =>
    if (match userName with
        | none => true
        | some u => hasSubstr kv.1.data u.data) then
      kv.2.interactions.map (fun m =>
        { type := "relationship"
          category := "interaction"
          content := m.content
          similarity := cosineSimilarity sqrt queryEmbedding (decompressEmbedding m.embedding)
          timestamp := m.timestamp
          id := m.id
          sentiment := some m.sentiment
          importance := none : MemorySearchResult })
    else [])).flatten

/-- The event section of `searchMemories`: events listing the user as a
participant (all events when no user given). -/
def eventSearchResults (sqrt : ℚ → ℚ) (st : LongTermMemory) (queryEmbedding : List ℚ)
    (userName : Option String) : List MemorySearchResult :=
  (st.events.map (fun m =>
    if (match userName with
        | none => true
        | some u => m.participants.contains u) then
      [{ type := "event"
         category := "general"
         content := m.content
         similarity := cosineSimilarity sqrt queryEmbedding (decompressEmbedding m.embedding)
         timestamp := m.timestamp
         id := m.id
         sentiment := none
         importance := some m.importance : MemorySearchResult }]
    else [])).flatten

/-- `searchMemories(query, userName?, limit = 5)`: collect candidates from
the personal memories of the given user (the four fixed categories only),
the relationships whose key contains the user, and the events listing the
user as participant; score each by cosine similarity against the
decompressed stored embedding; sort by descending similarity (stable) and
take the first `limit`. -/
def searchMemories (sqrt : ℚ → ℚ) (st : LongTermMemory) (queryEmbedding : List ℚ)
    (userName : Option String) (limit : Nat := 5) : List MemorySearchResult :=
  ((stableSortBy similarityBefore
    (personalSearchResults sqrt st queryEmbedding userName
      ++ relationshipSearchResults sqrt st queryEmbedding userName
      ++ eventSearchResults sqrt st queryEmbedding userName)).take limit)

/-- One category of the per-user part of `cleanupOldMemories`: when the
category holds more than 5 entries keep only those newer than a month or
longer than 30 characters, sorted newest first, truncated to 8. -/
def cleanupCategoryStep (monthAgo : Nat) (r : PersonalRecord) (category : String) :
    PersonalRecord :=
  let categoryArray := (getKey? category r).getD []
  if categoryArray.length > 5 then
    setKey category
      ((stableSortBy (fun a b => b.timestamp ≤ a.timestamp)
        (categoryArray.filter (fun m =>
          decide (monthAgo < m.timestamp) || decide (m.content.length > 30)))).take 8) r
  else r

/-- The per-user part of `cleanupOldMemories`: the category step applied to
each of the four fixed categories in order. -/
def cleanupPersonalRecord (monthAgo : Nat) (rec : PersonalRecord) : PersonalRecord :=
  fixedCategories.foldl (cleanupCategoryStep monthAgo) rec

/-- `cleanupOldMemories`, with the computed one-month-ago instant as the
parameter `monthAgo`. -/
def cleanupOldMemories (monthAgo : Nat) (st : LongTermMemory) : LongTermMemory :=
  { st with
      events := st.events.filter (fun e =>
        decide (monthAgo < e.timestamp) || decide ((4 : ℚ) ≤ e.importance))
      relationships := st.relationships.map (fun kv =>
        (kv.1, { kv.2 with interactions :=
          kv.2.interactions.filter (fun i => decide (monthAgo < i.timestamp)) }))
      personal := st.personal.map (fun kv => (kv.1, cleanupPersonalRecord monthAgo kv.2)) }

/-- One extracted personal-information entry of a model evaluation. -/
structure EvaluationInfo where
  content : String
  category : String
deriving DecidableEq

/-- The parsed result of the model evaluation of an exchange. -/
structure MemoryEvaluation where
  shouldStore : Bool
  personalInfo : List EvaluationInfo
  sentiment : String
  interactionSummary : String
deriving DecidableEq

/-- `autoProcessConversation(userName, userMessage, botResponse, botName)`
with the (external) model evaluation as a parameter.  As in the source, each
extracted entry is stored via `storePersonalMemory(info.content,
info.category)` — two positional arguments — and the interaction via
`storeRelationshipMemory(botName, evaluation.interactionSummary,
evaluation.sentiment)` — three positional arguments. -/
def autoProcessConversation (embed : String → List ℚ) (now : Nat) (st : LongTermMemory)
    (userName userMessage botResponse botName : String)
    (evaluation : MemoryEvaluation) : LongTermMemory :=
  if !evaluation.shouldStore then st
  else
    let st₁ := evaluation.personalInfo.foldl
      (fun s info => (storePersonalMemory embed now s info.content info.category).2.1) st
    if evaluation.interactionSummary ≠ "" ∧ evaluation.interactionSummary ≠ "評估失敗" then
      (storeRelationshipMemory embed now st₁ botName
        evaluation.interactionSummary evaluation.sentiment).2
    else st₁

/-! ## Concrete fixtures used by counterexamples and witnesses -/

/-- The category array a `storePersonalMemory` duplicate check runs against:
`(this.memory.personal[userName]?.[category]) || []` (with the fresh record a
first store would create). -/
def categoryArrayOf (st : LongTermMemory) (u cat : String) : List PersonalMemory :=
  (getKey? cat ((getKey? u st.personal).getD emptyPersonalRecord)).getD []

/-- A string serializer: everything dumps with tag `json` to itself. -/
def dumpsW0 : String → String × String := fun v => ("json", v)

/-- Loading a write value: a present serialized string loads to itself, a
missing (undefined) attribute loads to nothing. -/
def loadsW0 : String → Option String → Option String := fun _ v => v

/-- Loading a checkpoint blob in the string model. -/
def loadsCp0 : String → String → Checkpoint String := fun _ s => ⟨s, s⟩

/-- Loading metadata in the string model. -/
def loadsMd0 : String → String → String := fun _ s => s

/-- A saver state holding a single checkpoint `c1` of thread `t`. -/
def st0 : SaverState String :=
  ⟨[⟨"t", "", "c1", none, "json", "cp", "md"⟩], []⟩

/-- A thread whose newest checkpoint (`"2"`) is in namespace `B` while an
older one (`"1"`) is in namespace `A`. -/
def st5 : SaverState String :=
  ⟨[⟨"t", "A", "1", none, "json", "cp", "md"⟩,
    ⟨"t", "B", "2", none, "json", "cp", "md"⟩], []⟩

/-- A thread with two checkpoints, both in namespace `A`. -/
def stW5 : SaverState String :=
  ⟨[⟨"t", "A", "1", none, "json", "cp", "md"⟩,
    ⟨"t", "A", "2", some "1", "json", "cp", "md"⟩], []⟩

/-- A checkpoint serializer whose type tag differs from `dumpsMd0`'s. -/
def dumpsCpMis : Checkpoint String → String × String := fun cp => ("cbor", cp.data)

/-- A checkpoint serializer matching `dumpsMd0`'s tag. -/
def dumpsCpOk : Checkpoint String → String × String := fun cp => ("json", cp.data)

/-- A database with one stale thread `t` (its only checkpoint timestamp is
the epoch) holding one checkpoint and one pending write. -/
def dbC3 : SqlDB :=
  ⟨[⟨"t", "c1", some 0⟩], [⟨"t", 0⟩], some []⟩

/-- An embedding provider returning the empty vector. -/
def embedNil : String → List ℚ := fun _ => []

/-- A parsed evaluation that merits storage: one extracted fact and an
interaction summary. -/
def evalC2 : MemoryEvaluation :=
  { shouldStore := true
    personalInfo := [⟨"likes tea", "preferences"⟩]
    sentiment := "positive"
    interactionSummary := "had a nice chat" }

/-- The store produced by `autoProcessConversation` for user `Alice` and
agent `Vanilla` on `evalC2`, starting from the empty store. -/
def stC2 : LongTermMemory :=
  autoProcessConversation embedNil 0 emptyLTM "Alice" "msg" "resp" "Vanilla" evalC2

/-- A store in which user `u` already has the fact `I like tea` in category
`facts`. -/
def stC7 : LongTermMemory :=
  { personal := [("u", [("facts", [⟨"1", "I like tea", "facts", 1, []⟩]),
      ("traits", []), ("preferences", []), ("history", [])])]
    relationships := []
    events := []
    preferences := [] }

/-- A `Math.sqrt` stand-in used by concrete search runs (only its value at 0
matters to them). -/
def zeroSqrt : ℚ → ℚ := fun _ => 0

/-- A store with one relationship interaction whose compressed embedding is
the zero vector `[0]`. -/
def stC9 : LongTermMemory :=
  { personal := []
    relationships := [("u-bot", ⟨"u", "bot", [⟨"1", "hello", "neutral", 0, [0]⟩], [], []⟩)]
    events := []
    preferences := [] }

/-- An all-zero query embedding of width 8. -/
def queryC9 : List ℚ := [0, 0, 0, 0, 0, 0, 0, 0]

/-- A sample embedding of length 16 (a multiple of 8). -/
def embC6 : List ℚ :=
  [3, 0, 0, 0, 0, 0, 0, 0, 11, 0, 0, 0, 0, 0, 0, 0]

/-- A store in which user `u` exists with the four fresh category keys. -/
def stC10 : LongTermMemory :=
  { personal := [("u", emptyPersonalRecord)]
    relationships := []
    events := []
    preferences := [] }

/-! ## Order and sorting lemmas -/

theorem strLeChars_refl (a : List Char) : strLeChars a a = true := by
  induction a with
  | nil => rfl
  | cons c cs ih => simp [strLeChars, ih]

theorem strLeChars_total (a : List Char) : ∀ b, strLeChars a b = true ∨ strLeChars b a = true := by
  induction a with
  | nil => intro b; left; rfl
  | cons c cs ih =>
    intro b
    cases b with
    | nil => right; rfl
    | cons d ds =>
      rcases Nat.lt_trichotomy (charNat c) (charNat d) with h | h | h
      · left; simp [strLeChars, h]
      · rcases ih ds with h₂ | h₂
        · left; simp [strLeChars, h, h₂]
        · right; simp [strLeChars, h, h₂]
      · right; simp [strLeChars, h]

theorem strLeChars_trans (a : List Char) :
    ∀ b c, strLeChars a b = true → strLeChars b c = true → strLeChars a c = true := by
  induction a with
  | nil => intro b c _ _; rfl
  | cons x xs ih =>
    intro b c hab hbc
    cases b with
    | nil => simp [strLeChars] at hab
    | cons y ys =>
      cases c with
      | nil => simp [strLeChars] at hbc
      | cons z zs =>
        by_cases h₁ : charNat x < charNat y
        · by_cases h₂ : charNat y < charNat z
          · have : charNat x < charNat z := Nat.lt_trans h₁ h₂
            simp [strLeChars, this]
          · by_cases h₃ : charNat z < charNat y
            · simp [strLeChars, h₂, h₃] at hbc
            · have hyz : charNat y = charNat z := by omega
              have : charNat x < charNat z := by omega
              simp [strLeChars, this]
        · by_cases h₁' : charNat y < charNat x
          · simp [strLeChars, h₁, h₁'] at hab
          · have hxy : charNat x = charNat y := by omega
            by_cases h₂ : charNat y < charNat z
            · have : charNat x < charNat z := by omega
              simp [strLeChars, this]
            · by_cases h₃ : charNat z < charNat y
              · simp [strLeChars, h₂, h₃] at hbc
              · have h₄ : ¬ charNat x < charNat z := by omega
                have h₅ : ¬ charNat z < charNat x := by omega
                simp only [strLeChars, h₁, h₁', if_neg, if_false] at hab
                simp only [strLeChars, h₂, h₃, if_neg, if_false] at hbc
                simp only [strLeChars, h₄, h₅, if_neg, if_false]
                exact ih ys zs hab hbc

theorem strLtChars_not_le (a : List Char) :
    ∀ b, strLtChars a b = true → strLeChars b a = true → False := by
  induction a with
  | nil =>
    intro b hlt hle
    cases b with
    | nil => simp [strLtChars] at hlt
    | cons d ds => simp [strLeChars] at hle
  | cons c cs ih =>
    intro b hlt hle
    cases b with
    | nil => simp [strLtChars] at hlt
    | cons d ds =>
      by_cases h₁ : charNat c < charNat d
      · have h₂ : ¬ charNat d < charNat c := by omega
        simp [strLeChars, h₁, h₂] at hle
      · by_cases h₂ : charNat d < charNat c
        · simp [strLtChars, h₁, h₂] at hlt
        · simp only [strLtChars, h₁, h₂, if_neg, if_false] at hlt
          simp only [strLeChars, h₁, h₂, if_neg, if_false] at hle
          exact ih ds hlt hle

theorem strLe_trans {a b c : String} (h₁ : strLe a b = true) (h₂ : strLe b c = true) :
    strLe a c = true :=
  strLeChars_trans a.data b.data c.data h₁ h₂

theorem strLe_total (a b : String) : strLe a b = true ∨ strLe b a = true :=
  strLeChars_total a.data b.data

theorem strLe_refl (a : String) : strLe a a = true := strLeChars_refl a.data

theorem strLt_not_le {a b : String} (h₁ : strLt a b = true) (h₂ : strLe b a = true) : False :=
  strLtChars_not_le a.data b.data h₁ h₂

theorem mem_insertDescBy {α : Type} (key : α → String) (x : α) (l : List α) :
    ∀ y, y ∈ insertDescBy key x l ↔ y = x ∨ y ∈ l := by
  induction l with
  | nil => intro y; simp [insertDescBy]
  | cons z zs ih =>
    intro y
    by_cases h : strLe (key z) (key x) = true
    · simp [insertDescBy, h]
    · simp only [insertDescBy, h]
      simp [ih y]
      tauto

/-- The head of `sortDescBy` is an element whose key dominates every
element's key. -/
theorem sortDescBy_max {α : Type} (key : α → String) (l : List α) (hne : l ≠ []) :
    ∃ h t, sortDescBy key l = h :: t ∧ h ∈ l ∧ ∀ c ∈ l, strLe (key c) (key h) = true := by
  induction l with
  | nil => exact absurd rfl hne
  | cons x xs ih =>
    cases xs with
    | nil =>
      refine ⟨x, [], rfl, List.mem_singleton.mpr rfl, ?_⟩
      intro c hc
      rw [List.mem_singleton.mp hc]
      exact strLe_refl _
    | cons y ys =>
      obtain ⟨h, t, heq, hmem, hmax⟩ := ih (by simp)
      have hsort : sortDescBy key (x :: y :: ys) = insertDescBy key x (h :: t) := by
        have hstep : sortDescBy key (x :: y :: ys)
            = insertDescBy key x (sortDescBy key (y :: ys)) := rfl
        rw [hstep, heq]
      by_cases hx : strLe (key h) (key x) = true
      · refine ⟨x, h :: t, ?_, by simp, ?_⟩
        · rw [hsort]; simp [insertDescBy, hx]
        · intro c hc
          rcases List.mem_cons.mp hc with rfl | hc₂
          · exact strLe_refl _
          · exact strLe_trans (hmax c hc₂) hx
      · refine ⟨h, insertDescBy key x t, ?_, List.mem_cons_of_mem _ hmem, ?_⟩
        · rw [hsort]; simp [insertDescBy, hx]
        · intro c hc
          rcases List.mem_cons.mp hc with rfl | hc₂
          · rcases strLe_total (key c) (key h) with h₁ | h₁
            · exact h₁
            · exact absurd h₁ hx
          · exact hmax c hc₂

/-! ## Claim theorems: checkpoint saver -/

/-- C1.  The round-trip of pending writes is broken: `putWrites` stores the
serialized value under the attribute `valu`, while `getTuple` reads the
attribute `value`, so the write read back carries no value (`none`) instead
of the submitted `"v1"` — the rest of the write (task id and channel) does
round-trip.  The second conjunct shows the stored item: the serialized value
sits under `valu` and the `value` attribute `getTuple` reads is absent. -/
theorem putWrites_getTuple_value_lost :
    (putWrites dumpsW0 st0 "t" "" (some "c1") "task1" [("channel1", "v1")]).toOption.bind
        (fun st₁ => (getTuple loadsCp0 loadsMd0 loadsW0 st₁ "t" "" (some "c1")).map
          (fun tu => tu.pendingWrites))
      = some [("task1", "channel1", none)]
    ∧ (putWrites dumpsW0 st0 "t" "" (some "c1") "task1" [("channel1", "v1")]).toOption.map
        (fun st₁ => st₁.checkpointWrites.map
          (fun w => (getKey? "valu" w.attrs, getKey? "value" w.attrs)))
      = some [(some "v1", none)] := by
  constructor <;> decide

/-- C4.  `list` with a `before` bound always fails: the key condition
references the placeholder `:before_checkpoint_id` while the value map binds
`:beforeCheckpointId`, so the query is rejected instead of returning the
strictly older checkpoints. -/
theorem list_before_always_errors {V S : Type} (loadsCp : String → S → Checkpoint V)
    (loadsMd : String → S → V) (st : SaverState S) (t : String)
    (limit : Option Nat) (b : String) :
    listCheckpoints loadsCp loadsMd st t limit (some b)
      = .error "ValidationException: An expression attribute value used in expression is not defined" :=
  rfl

/-- C5 counterexample.  Thread `t` holds checkpoint `1` in namespace `A` and
the newer checkpoint `2` in namespace `B`; `get` on `(t, A)` without a
checkpoint id returns `notFound` although a checkpoint of namespace `A`
exists, because the `Limit: 1` query picks the thread's newest item before
the namespace filter runs. -/
theorem getTuple_namespace_notFound :
    getTuple loadsCp0 loadsMd0 loadsW0 st5 "t" "A" none = none
    ∧ st5.checkpoints.any
        (fun c => (c.thread_id = "t" : Bool) && (c.checkpoint_ns = "A" : Bool)) = true := by
  constructor <;> decide

/-- C5 amended.  `get` with the checkpoint id omitted inspects only the
single newest checkpoint of the whole thread: with no checkpoints it returns
`notFound` (not an error); if the newest checkpoint passes the namespace
filter (namespace empty, or equal to its namespace) that checkpoint is
returned; otherwise `notFound` is returned even when the requested namespace
holds older checkpoints. -/
theorem getTuple_latest_of_thread {V S : Type} (loadsCp : String → S → Checkpoint V)
    (loadsMd : String → S → V) (loadsW : String → Option S → Option V)
    (st : SaverState S) (t ns : String) :
    ((∀ c ∈ st.checkpoints, c.thread_id ≠ t) →
      getTuple loadsCp loadsMd loadsW st t ns none = none)
    ∧ (∀ m ∈ st.checkpoints, m.thread_id = t →
        (∀ c ∈ st.checkpoints, c.thread_id = t → c ≠ m →
          strLt c.checkpoint_id m.checkpoint_id = true) →
        ((ns = "" ∨ m.checkpoint_ns = ns →
          ∃ tu, getTuple loadsCp loadsMd loadsW st t ns none = some tu
            ∧ tu.config = (t, m.checkpoint_ns, m.checkpoint_id))
        ∧ (ns ≠ "" → m.checkpoint_ns ≠ ns →
          getTuple loadsCp loadsMd loadsW st t ns none = none))) := by
  constructor
  · intro hnone
    have hfil : st.checkpoints.filter (fun c => (c.thread_id = t : Bool)) = [] := by
      rw [List.filter_eq_nil_iff]
      intro c hc
      simpa using hnone c hc
    simp only [getTuple, queryThreadDesc, hfil]
    rfl
  · intro m hm hmt hstrict
    have hml : m ∈ st.checkpoints.filter (fun c => (c.thread_id = t : Bool)) :=
      List.mem_filter.mpr ⟨hm, by simp [hmt]⟩
    obtain ⟨h, t', heq, hmem, hmax⟩ :=
      sortDescBy_max (fun c => c.checkpoint_id) _ (List.ne_nil_of_mem hml)
    have hhm : h = m := by
      by_contra hne
      have hh := List.mem_filter.mp hmem
      have hht : h.thread_id = t := by simpa using hh.2
      exact strLt_not_le (hstrict h hh.1 hht hne) (hmax m hml)
    subst hhm
    have hquery : queryThreadDesc st.checkpoints t = h :: t' := heq
    have hget : getTuple loadsCp loadsMd loadsW st t ns none
        = if (!(ns ≠ "" : Bool) || (h.checkpoint_ns = ns : Bool)) then
            some (tupleOfItem loadsCp loadsMd loadsW st.checkpointWrites h)
          else none := by
      cases hb : (!(ns ≠ "" : Bool) || (h.checkpoint_ns = ns : Bool)) with
      | false =>
        simp only [ne_eq] at hb ⊢
        simp [getTuple, hquery, hb]
        simpa using hb
      | true =>
        simp only [ne_eq] at hb ⊢
        simp [getTuple, hquery, hb]
        intro hne
        rcases (by simpa using hb : ns = "" ∨ h.checkpoint_ns = ns) with h₁ | h₁
        · exact absurd h₁ hne
        · exact h₁
    constructor
    · intro hns
      have hp : (!(ns ≠ "" : Bool) || (h.checkpoint_ns = ns : Bool)) = true := by
        rcases hns with rfl | hns₂
        · simp
        · simp [hns₂]
      rw [hget, if_pos hp]
      refine ⟨_, rfl, ?_⟩
      simp [tupleOfItem, hmt]
    · intro hns hmns
      have hp : ¬ ((!(ns ≠ "" : Bool) || (h.checkpoint_ns = ns : Bool)) = true) := by
        simp [hns, hmns]
      rw [hget, if_neg hp]

/-- C8.  `put` fails if and only if checkpoint and metadata dump with
different type tags; on failure no state is produced (the caller's tables are
untouched), otherwise exactly one record carries the new key, every other
record is unchanged, the writes table is unchanged, and the returned
configuration carries the new checkpoint's id. -/
theorem put_tag_mismatch_iff {V S : Type} (dumpsCp : Checkpoint V → String × S)
    (dumpsMd : V → String × S) (st : SaverState S) (t ns : String)
    (pid : Option String) (cp : Checkpoint V) (md : V) :
    ((dumpsCp cp).1 ≠ (dumpsMd md).1 →
      put dumpsCp dumpsMd st t ns pid cp md
        = .error "Failed to serialize checkpoint and metadata to the same type.")
    ∧ ((dumpsCp cp).1 = (dumpsMd md).1 →
      ∃ st₂, put dumpsCp dumpsMd st t ns pid cp md = .ok (st₂, (t, ns, cp.id))
        ∧ st₂.checkpointWrites = st.checkpointWrites
        ∧ st₂.checkpoints.countP
            (fun c => (c.thread_id = t : Bool) && (c.checkpoint_id = cp.id : Bool)) = 1
        ∧ st₂.checkpoints.filter
            (fun c => !((c.thread_id = t : Bool) && (c.checkpoint_id = cp.id : Bool)))
          = st.checkpoints.filter
            (fun c => !((c.thread_id = t : Bool) && (c.checkpoint_id = cp.id : Bool)))) := by
  constructor
  · intro h
    simp only [put]
    rw [if_pos h]
  · intro h
    have h' : ¬ (dumpsCp cp).1 ≠ (dumpsMd md).1 := by simpa using h
    refine ⟨⟨putCheckpointItem
        (⟨t, ns, cp.id, pid, (dumpsCp cp).1, (dumpsCp cp).2, (dumpsMd md).2⟩ : CPItem S)
        st.checkpoints, st.checkpointWrites⟩, ?_, rfl, ?_, ?_⟩
    · simp only [put]
      rw [if_neg h']
    · simp only [putCheckpointItem, Bool.decide_and, List.countP_append]
      have h₀ : List.countP
          (fun c => (c.thread_id = t : Bool) && (c.checkpoint_id = cp.id : Bool))
          (st.checkpoints.filter
            (fun c => !((c.thread_id = t : Bool) && (c.checkpoint_id = cp.id : Bool)))) = 0 := by
        rw [List.countP_eq_zero]
        intro a ha
        have := (List.mem_filter.mp ha).2
        simp at this
        simp
        tauto
      rw [h₀]
      simp
    · simp only [putCheckpointItem, Bool.decide_and, List.filter_append]
      rw [List.filter_filter]
      simp [Bool.and_self]

/-! ## Association-list lemmas -/

theorem getKey?_setKey_same {β : Type} (k : String) (v : β) (l : List (String × β)) :
    getKey? k (setKey k v l) = some v := by
  induction l with
  | nil => simp [setKey, getKey?]
  | cons kv rest ih =>
    by_cases h : kv.1 = k
    · simp [setKey, getKey?, h]
    · simpa [setKey, getKey?, h] using ih

theorem getKey?_setKey_ne {β : Type} (k k' : String) (v : β) (l : List (String × β))
    (h : k' ≠ k) : getKey? k' (setKey k v l) = getKey? k' l := by
  have hkk : ¬ k = k' := fun hk => h hk.symm
  induction l with
  | nil => simp [setKey, getKey?, hkk]
  | cons kv rest ih =>
    by_cases hk : kv.1 = k
    · simp [setKey, getKey?, hk, hkk]
    · simp only [setKey, hk, if_false, getKey?, ih]

theorem getKey?_map_snd {β γ : Type} (k : String) (f : β → γ) (l : List (String × β)) :
    getKey? k (l.map (fun kv => (kv.1, f kv.2))) = (getKey? k l).map f := by
  induction l with
  | nil => simp [getKey?]
  | cons kv rest ih =>
    by_cases h : kv.1 = k
    · simp [getKey?, h]
    · simp [getKey?, h, ih]

theorem getKey?_emptyPersonalRecord_getD (cat : String) :
    (getKey? cat emptyPersonalRecord).getD [] = [] := by
  simp only [emptyPersonalRecord, getKey?]
  split <;> try rfl
  split <;> try rfl
  split <;> try rfl
  split <;> rfl

/-- `getKey? cat` of the fold of category steps over categories all distinct
from `cat` is unchanged. -/
theorem getKey?_foldl_cleanupCategoryStep (monthAgo : Nat) (cat : String) :
    ∀ (cats : List String) (rec : PersonalRecord), (∀ c ∈ cats, c ≠ cat) →
      getKey? cat (cats.foldl (cleanupCategoryStep monthAgo) rec) = getKey? cat rec := by
  intro cats
  induction cats with
  | nil => intro rec _; rfl
  | cons c cs ih =>
    intro rec hne
    have hstep : getKey? cat (cleanupCategoryStep monthAgo rec c) = getKey? cat rec := by
      simp only [cleanupCategoryStep]
      split
      · exact getKey?_setKey_ne c cat _ rec (Ne.symm (hne c (by simp)))
      · rfl
    calc getKey? cat ((c :: cs).foldl (cleanupCategoryStep monthAgo) rec)
        = getKey? cat (cs.foldl (cleanupCategoryStep monthAgo) (cleanupCategoryStep monthAgo rec c)) := rfl
      _ = getKey? cat (cleanupCategoryStep monthAgo rec c) :=
          ih _ (fun d hd => hne d (by simp [hd]))
      _ = getKey? cat rec := hstep

/-! ## Claim theorems: SQL retention job -/

/-- C3.  `cleanup_checkpoints_by_age` reaps a whole thread exactly when none
of its checkpoints is recent: a thread all of whose checkpoints are older
than the cutoff loses every checkpoint and every pending write, with a
positive checkpoint count (and a positive write count when it had writes);
a thread with any checkpoint at or after the cutoff keeps all its
checkpoints and all its pending writes. -/
theorem cleanup_reaps_old_threads_only (db : SqlDB) (now rd : Nat) (t : String) :
    ((∃ c ∈ db.checkpoints, c.thread_id = t) →
      (∀ c ∈ db.checkpoints, c.thread_id = t → effTs c < now - rd * 86400) →
      (∀ c ∈ (cleanupCheckpointsByAge db now rd).1.checkpoints, c.thread_id ≠ t)
      ∧ (∀ w ∈ (cleanupCheckpointsByAge db now rd).1.checkpoint_writes, w.thread_id ≠ t)
      ∧ 0 < (cleanupCheckpointsByAge db now rd).2.1
      ∧ ((∃ w ∈ db.checkpoint_writes, w.thread_id = t) →
          0 < (cleanupCheckpointsByAge db now rd).2.2.1))
    ∧ ((∃ c ∈ db.checkpoints, c.thread_id = t ∧ now - rd * 86400 ≤ effTs c) →
        (cleanupCheckpointsByAge db now rd).1.checkpoints.filter
            (fun c => (c.thread_id = t : Bool))
          = db.checkpoints.filter (fun c => (c.thread_id = t : Bool))
        ∧ (cleanupCheckpointsByAge db now rd).1.checkpoint_writes.filter
            (fun w => (w.thread_id = t : Bool))
          = db.checkpoint_writes.filter (fun w => (w.thread_id = t : Bool))) := by
  constructor
  · rintro ⟨c₀, hc₀, hc₀t⟩ hall
    have hold : oldThread db (now - rd * 86400) t = true := by
      simp only [oldThread, Bool.and_eq_true, List.any_eq_true, Bool.not_eq_true']
      constructor
      · exact ⟨c₀, hc₀, by simp [hc₀t]⟩
      · rw [List.any_eq_false]
        intro c hc
        by_cases hct : c.thread_id = t
        · have := hall c hc hct
          simp [hct, this]
          omega
        · simp [hct]
    refine ⟨?_, ?_, ?_, ?_⟩
    · intro c hc hct
      have hmem := List.mem_filter.mp hc
      rw [hct, hold] at hmem
      simp at hmem
    · intro w hw hwt
      have hmem := List.mem_filter.mp hw
      rw [hwt, hold] at hmem
      simp at hmem
    · refine List.countP_pos_iff.mpr ⟨c₀, hc₀, ?_⟩
      rw [hc₀t, hold]
    · rintro ⟨w₀, hw₀, hw₀t⟩
      refine List.countP_pos_iff.mpr ⟨w₀, hw₀, ?_⟩
      rw [hw₀t, hold]
  · rintro ⟨c₁, hc₁, hc₁t, hc₁r⟩
    have hnew : oldThread db (now - rd * 86400) t = false := by
      simp only [oldThread, Bool.and_eq_false_iff]
      right
      simp only [Bool.not_eq_false', List.any_eq_true]
      exact ⟨c₁, hc₁, by simp [hc₁t, hc₁r]⟩
    constructor
    · show (db.checkpoints.filter _).filter _ = _
      rw [List.filter_filter]
      apply List.filter_congr
      intro c hc
      by_cases hct : c.thread_id = t
      · simp [hct, hnew]
      · simp [hct]
    · show (db.checkpoint_writes.filter _).filter _ = _
      rw [List.filter_filter]
      apply List.filter_congr
      intro w hw
      by_cases hwt : w.thread_id = t
      · simp [hwt, hnew]
      · simp [hwt]

/-! ## Claim theorems: memory engine -/

/-- C7.  Storing a personal fact whose lowercased content equals that of an
existing entry in the same category of the same user returns `"duplicate"`,
leaves the store unchanged, and computes no embedding (the similarity used
is the word-set Jaccard index, which is 1 on equal lowercased content,
above the 0.8 threshold). -/
theorem storePersonal_duplicate (embed : String → List ℚ) (now : Nat) (st : LongTermMemory)
    (u fact cat : String)
    (h : ∃ m ∈ categoryArrayOf st u cat, jsToLower m.content = jsToLower fact) :
    (storePersonalMemory embed now st u fact cat).1 = "duplicate"
    ∧ (storePersonalMemory embed now st u fact cat).2.1 = st
    ∧ (storePersonalMemory embed now st u fact cat).2.2 = 0 := by
  obtain ⟨m, hmem, hml⟩ := h
  obtain ⟨rec, hrec⟩ : ∃ rec, getKey? u st.personal = some rec := by
    cases hrec : getKey? u st.personal with
    | some r => exact ⟨r, rfl⟩
    | none =>
      exfalso
      have hempty : categoryArrayOf st u cat = [] := by
        simp [categoryArrayOf, hrec, getKey?_emptyPersonalRecord_getD]
      rw [hempty] at hmem
      exact absurd hmem (List.not_mem_nil m)
  have hdup : (categoryArrayOf st u cat).any (fun existing =>
      decide (calculateSimilarity (jsToLower existing.content) (jsToLower fact) > 8 / 10))
      = true := by
    refine List.any_eq_true.mpr ⟨m, hmem, ?_⟩
    rw [hml]
    have hsim : calculateSimilarity (jsToLower fact) (jsToLower fact) = 1 := by
      simp [calculateSimilarity]
    rw [decide_eq_true_eq, hsim]
    norm_num
  have harr : (getKey? cat rec).getD [] = categoryArrayOf st u cat := by
    simp [categoryArrayOf, hrec]
  have hres : storePersonalMemory embed now st u fact cat = ("duplicate", st, 0) := by
    simp only [storePersonalMemory, hrec, Option.isNone_some, Bool.false_eq_true, if_false,
      Option.getD_some, harr, hdup, if_true]
  exact ⟨by rw [hres], by rw [hres], by rw [hres]⟩

/-- C10.  `storePersonalMemory` with a category outside the four fixed ones
(such as its default `general`) appends the entry under a new key of the
user's record; the entry is invisible to `searchMemories` (the search result
is identical to the one on the pre-store state, for any query, user filter
and limit) and immune to `cleanupOldMemories` (the entry is still there
after any cleanup), because both enumerate only the four fixed category
names. -/
theorem storePersonal_unknown_category (embed : String → List ℚ) (now : Nat)
    (st : LongTermMemory) (u fact cat : String) (userRec : PersonalRecord)
    (hcat : cat ∉ fixedCategories)
    (hrec : getKey? u st.personal = some userRec)
    (hnew : getKey? cat userRec = none) :
    (storePersonalMemory embed now st u fact cat).1 = toString now
    ∧ getKey? u (storePersonalMemory embed now st u fact cat).2.1.personal
        = some (setKey cat
            [⟨toString now, fact, cat, now, compressEmbedding (embed fact)⟩] userRec)
    ∧ getKey? cat (setKey cat
          [⟨toString now, fact, cat, now, compressEmbedding (embed fact)⟩] userRec)
        = some [⟨toString now, fact, cat, now, compressEmbedding (embed fact)⟩]
    ∧ (∀ sqrt q uq lim,
        searchMemories sqrt (storePersonalMemory embed now st u fact cat).2.1 q uq lim
          = searchMemories sqrt st q uq lim)
    ∧ (∀ monthAgo,
        getKey? cat ((getKey? u
            (cleanupOldMemories monthAgo
              (storePersonalMemory embed now st u fact cat).2.1).personal).getD [])
          = some [⟨toString now, fact, cat, now, compressEmbedding (embed fact)⟩]) := by
  have hstore : storePersonalMemory embed now st u fact cat
      = (toString now,
          (⟨setKey u (setKey cat
              [⟨toString now, fact, cat, now, compressEmbedding (embed fact)⟩] userRec)
              st.personal,
            st.relationships, st.events, st.preferences⟩ : LongTermMemory),
          1) := by
    simp only [storePersonalMemory, hrec, Option.isNone_some, Bool.false_eq_true, if_false,
      Option.getD_some, hnew, Option.getD_none, List.any_nil, List.nil_append,
      List.length_singleton]
    norm_num
  refine ⟨by rw [hstore], ?_, getKey?_setKey_same _ _ _, ?_, ?_⟩
  · rw [hstore]
    exact getKey?_setKey_same _ _ _
  · intro sqrt q uq lim
    rw [hstore]
    have hpers : personalSearchResults sqrt
        (⟨setKey u (setKey cat
            [⟨toString now, fact, cat, now, compressEmbedding (embed fact)⟩] userRec)
            st.personal,
          st.relationships, st.events, st.preferences⟩ : LongTermMemory) q uq
        = personalSearchResults sqrt st q uq := by
      cases uq with
      | none => rfl
      | some u' =>
        by_cases hu : u' = u
        · subst hu
          simp only [personalSearchResults, getKey?_setKey_same, hrec]
          apply congrArg
          apply List.map_congr_left
          intro c hc
          have hne : c ≠ cat := fun hce => hcat (hce ▸ hc)
          rw [getKey?_setKey_ne cat c _ userRec hne]
        · simp only [personalSearchResults,
            getKey?_setKey_ne u u' _ st.personal hu]
    simp only [searchMemories, hpers, relationshipSearchResults, eventSearchResults]
  · intro monthAgo
    rw [hstore]
    simp only [cleanupOldMemories, getKey?_map_snd, getKey?_setKey_same, Option.map_some,
      Option.map_some', Option.getD_some]
    rw [show cleanupPersonalRecord monthAgo (setKey cat
        [⟨toString now, fact, cat, now, compressEmbedding (embed fact)⟩] userRec)
        = fixedCategories.foldl (cleanupCategoryStep monthAgo) (setKey cat
            [⟨toString now, fact, cat, now, compressEmbedding (embed fact)⟩] userRec) from rfl]
    rw [getKey?_foldl_cleanupCategoryStep monthAgo cat fixedCategories _
      (fun c hc hce => hcat (hce ▸ hc))]
    exact getKey?_setKey_same _ _ _

/-! ## Embedding compression lemmas -/

theorem getD_map_range (n : Nat) (f : Nat → ℚ) (j : Nat) (h : j < n) :
    ((List.range n).map f).getD j 0 = f j := by
  rw [List.getD_eq_getElem?_getD]
  simp [List.getElem?_map, List.getElem?_range, h]

theorem decompressEmbedding_length (c : List ℚ) :
    (decompressEmbedding c).length = 8 * c.length := by
  induction c with
  | nil => rfl
  | cons x rest ih =>
    cases rest with
    | nil => rfl
    | cons y rest₂ =>
      have hstep : decompressEmbedding (x :: y :: rest₂)
          = (x :: (List.range 7).map (fun j : Nat => x + ((y - x) / 8) * ((j : ℚ) + 1)))
            ++ decompressEmbedding (y :: rest₂) := rfl
      rw [hstep]
      simp only [List.length_append, List.length_cons, List.length_map, List.length_range, ih]
      omega

theorem decompressEmbedding_getD (c : List ℚ) :
    ∀ k j, k < c.length → j < 8 →
      (decompressEmbedding c).getD (8 * k + j) 0 =
        if j = 0 then c.getD k 0
        else if k + 1 < c.length then
          c.getD k 0 + ((c.getD (k + 1) 0 - c.getD k 0) / 8) * (j : ℚ)
        else c.getD k 0 := by
  induction c with
  | nil => intro k j hk _; exact absurd hk (by simp)
  | cons x rest ih =>
    intro k j hk hj
    cases rest with
    | nil =>
      have hk0 : k = 0 := by
        simp only [List.length_singleton] at hk
        omega
      subst hk0
      have hdec : decompressEmbedding [x] = x :: List.replicate 7 x := rfl
      rw [hdec]
      rw [if_neg (by simp : ¬ (0 + 1 < [x].length))]
      by_cases hj0 : j = 0
      · subst hj0
        simp
      · obtain ⟨j', rfl⟩ : ∃ j', j = j' + 1 := ⟨j - 1, by omega⟩
        rw [if_neg hj0]
        simp only [Nat.mul_zero, Nat.zero_add, List.getD_cons_succ]
        have hj' : j' < 7 := by omega
        interval_cases j' <;> rfl
    | cons y rest₂ =>
      have hstep : decompressEmbedding (x :: y :: rest₂)
          = (x :: (List.range 7).map (fun i : Nat => x + ((y - x) / 8) * ((i : ℚ) + 1)))
            ++ decompressEmbedding (y :: rest₂) := rfl
      cases k with
      | zero =>
        rw [hstep, List.getD_append _ _ _ _ (by
          simp only [List.length_cons, List.length_map, List.length_range]
          omega)]
        by_cases hj0 : j = 0
        · subst hj0
          simp
        · obtain ⟨j', rfl⟩ : ∃ j', j = j' + 1 := ⟨j - 1, by omega⟩
          have hj' : j' < 7 := by omega
          simp only [Nat.mul_zero, Nat.zero_add, List.getD_cons_succ]
          rw [getD_map_range 7 _ j' hj']
          rw [if_neg hj0, if_pos (by simp : 0 + 1 < (x :: y :: rest₂).length)]
          have hcast : ((j' : ℚ) + 1) = ((j' + 1 : Nat) : ℚ) := by push_cast; ring
          rw [hcast]
          simp [List.getD]
      | succ k' =>
        have hlen : (x :: (List.range 7).map
            (fun i : Nat => x + ((y - x) / 8) * ((i : ℚ) + 1))).length = 8 := by
          simp
        rw [hstep, List.getD_append_right _ _ _ _ (by rw [hlen]; omega)]
        rw [hlen]
        have hidx : 8 * (k' + 1) + j - 8 = 8 * k' + j := by omega
        rw [hidx]
        have hk' : k' < (y :: rest₂).length := by
          simp only [List.length_cons] at hk ⊢
          omega
        rw [ih k' j hk' hj]
        have hg1 : (y :: rest₂).getD k' 0 = (x :: y :: rest₂).getD (k' + 1) 0 := by
          simp [List.getD]
        have hg2 : (y :: rest₂).getD (k' + 1) 0 = (x :: y :: rest₂).getD (k' + 1 + 1) 0 := by
          simp [List.getD]
        have hc : (k' + 1 < (y :: rest₂).length) ↔ (k' + 1 + 1 < (x :: y :: rest₂).length) := by
          simp only [List.length_cons]
          omega
        by_cases hin : k' + 1 < (y :: rest₂).length
        · rw [if_pos hin, if_pos (hc.mp hin), hg1, hg2]
        · rw [if_neg hin, if_neg (fun hcontra => hin (hc.mpr hcontra)), hg1]

theorem compressEmbedding_length (e : List ℚ) :
    (compressEmbedding e).length = (e.length + 7) / 8 := by
  simp [compressEmbedding]

theorem compressEmbedding_getD (e : List ℚ) (k : Nat) (hk : k < (e.length + 7) / 8) :
    (compressEmbedding e).getD k 0 = e.getD (8 * k) 0 :=
  getD_map_range _ _ k hk

/-- A linear interpolant `x + ((y - x) / 8) * j` with `1 ≤ j ≤ 7` lies
between `x` and `y` inclusively. -/
theorem interp_between (x y j : ℚ) (h1 : 1 ≤ j) (h7 : j ≤ 7) :
    min x y ≤ x + ((y - x) / 8) * j ∧ x + ((y - x) / 8) * j ≤ max x y := by
  rcases le_total x y with h | h
  · rw [min_eq_left h, max_eq_right h]
    constructor <;> nlinarith
  · rw [min_eq_right h, max_eq_left h]
    constructor <;> nlinarith

/-- C6.  For an embedding whose length is a multiple of 8,
decompress-after-compress preserves the length, reproduces the original
values exactly at every index that is a multiple of 8, bounds every
interpolated value inclusively between the two surrounding retained values,
and repeats the final retained value over the last segment. -/
theorem compress_decompress_roundtrip (e : List ℚ) (h8 : e.length % 8 = 0) :
    (decompressEmbedding (compressEmbedding e)).length = e.length
    ∧ (∀ k, 8 * k < e.length →
        (decompressEmbedding (compressEmbedding e)).getD (8 * k) 0 = e.getD (8 * k) 0)
    ∧ (∀ k j, 1 ≤ j → j ≤ 7 → 8 * (k + 1) < e.length →
        min (e.getD (8 * k) 0) (e.getD (8 * (k + 1)) 0)
            ≤ (decompressEmbedding (compressEmbedding e)).getD (8 * k + j) 0
        ∧ (decompressEmbedding (compressEmbedding e)).getD (8 * k + j) 0
            ≤ max (e.getD (8 * k) 0) (e.getD (8 * (k + 1)) 0))
    ∧ (∀ k j, 1 ≤ j → j ≤ 7 → 8 * (k + 1) = e.length →
        (decompressEmbedding (compressEmbedding e)).getD (8 * k + j) 0 = e.getD (8 * k) 0) := by
  have hclen : (compressEmbedding e).length = e.length / 8 := by
    rw [compressEmbedding_length]
    omega
  refine ⟨?_, ?_, ?_, ?_⟩
  · rw [decompressEmbedding_length, hclen]
    omega
  · intro k hk
    have hkc : k < (compressEmbedding e).length := by rw [hclen]; omega
    have := decompressEmbedding_getD (compressEmbedding e) k 0 hkc (by omega)
    rw [Nat.add_zero] at this
    rw [this, if_pos rfl]
    exact compressEmbedding_getD e k (by omega)
  · intro k j hj1 hj7 hkl
    have hkc : k < (compressEmbedding e).length := by rw [hclen]; omega
    have hk1c : k + 1 < (compressEmbedding e).length := by rw [hclen]; omega
    have hget := decompressEmbedding_getD (compressEmbedding e) k j hkc (by omega)
    rw [if_neg (by omega), if_pos hk1c] at hget
    rw [hget]
    rw [compressEmbedding_getD e k (by omega),
      compressEmbedding_getD e (k + 1) (by omega)]
    exact interp_between _ _ (j : ℚ) (by exact_mod_cast hj1) (by exact_mod_cast hj7)
  · intro k j hj1 hj7 hkl
    have hkc : k < (compressEmbedding e).length := by rw [hclen]; omega
    have hk1c : ¬ (k + 1 < (compressEmbedding e).length) := by rw [hclen]; omega
    have hget := decompressEmbedding_getD (compressEmbedding e) k j hkc (by omega)
    rw [if_neg (by omega), if_neg hk1c] at hget
    rw [hget]
    exact compressEmbedding_getD e k (by omega)

/-! ## Cosine-similarity NaN lemmas -/

theorem getD_eq_zero_of_all_zero (a : List ℚ) (h : ∀ x ∈ a, x = 0) (i : Nat) :
    a.getD i 0 = 0 := by
  rw [List.getD_eq_getElem?_getD]
  cases hgi : a[i]? with
  | none => rfl
  | some v =>
    have hv := List.getElem?_mem hgi
    simp [h v hv]

/-- The denominator `sqrt normA * sqrt normB` of `cosineSimilarity` is `0`
or `NaN` whenever one of the two norms is `0` (and the other is finite or
`NaN`), so the division returns `NaN` for a numerator that is `0` or `NaN`. -/
theorem jdiv_sqrt_zero (sqrt : ℚ → ℚ) (hs : sqrt 0 = 0) (s₁ s₂ s₃ : JSNum)
    (h₁ : s₁ = .num 0 ∨ s₁ = .nan)
    (h₂₃ : ((s₂ = .num 0 ∨ s₂ = .nan) ∧ ((∃ q, s₃ = .num q) ∨ s₃ = .nan))
      ∨ ((s₃ = .num 0 ∨ s₃ = .nan) ∧ ((∃ q, s₂ = .num q) ∨ s₂ = .nan))) :
    jdiv s₁ (jmul (jsqrt sqrt s₂) (jsqrt sqrt s₃)) = .nan := by
  have hzero : jsqrt sqrt (.num 0) = .num 0 := by
    simp [jsqrt, hs]
  have hden : jmul (jsqrt sqrt s₂) (jsqrt sqrt s₃) = .num 0
      ∨ jmul (jsqrt sqrt s₂) (jsqrt sqrt s₃) = .nan := by
    rcases h₂₃ with ⟨h₂, h₃⟩ | ⟨h₃, h₂⟩
    · rcases h₂ with h₂ | h₂ <;> subst h₂
      · rw [hzero]
        rcases h₃ with ⟨q, h₃⟩ | h₃ <;> subst h₃
        · by_cases hq : q < 0
          · simp [jsqrt, hq, jmul]
          · simp [jsqrt, hq, jmul]
        · simp [jsqrt, jmul]
      · simp [jsqrt, jmul]
    · rcases h₃ with h₃ | h₃ <;> subst h₃
      · rw [hzero]
        rcases h₂ with ⟨q, h₂⟩ | h₂ <;> subst h₂
        · by_cases hq : q < 0
          · simp [jsqrt, hq, jmul]
          · simp [jsqrt, hq, jmul]
        · simp [jsqrt, jmul]
      · rcases h₂ with ⟨q, h₂⟩ | h₂ <;> subst h₂
        · by_cases hq : q < 0
          · simp [jsqrt, hq, jmul]
          · simp [jsqrt, hq, jmul]
        · simp [jsqrt, jmul]
  rcases h₁ with h₁ | h₁ <;> subst h₁ <;> rcases hden with hden | hden <;> rw [hden] <;>
    simp [jdiv]

/-- C9 helper.  `cosineSimilarity` evaluates to `NaN` whenever either input
vector is all zeros: both the dot product and the zero vector's norm are 0
(or `NaN` past the end of a shorter `b`), and `0 / 0 = NaN`. -/
theorem cosineSimilarity_allZero (sqrt : ℚ → ℚ) (hs : sqrt 0 = 0) (a b : List ℚ)
    (h : (∀ x ∈ a, x = 0) ∨ (∀ x ∈ b, x = 0)) :
    cosineSimilarity sqrt a b = .nan := by
  rcases h with ha | hb
  · have key : ∀ (is : List Nat) (acc : JSNum × JSNum × JSNum),
        (acc.1 = .num 0 ∨ acc.1 = .nan) → acc.2.1 = .num 0 →
        ((∃ q, acc.2.2 = .num q) ∨ acc.2.2 = .nan) →
        ((is.foldl (cosineStep a b) acc).1 = .num 0 ∨ (is.foldl (cosineStep a b) acc).1 = .nan)
        ∧ (is.foldl (cosineStep a b) acc).2.1 = .num 0
        ∧ ((∃ q, (is.foldl (cosineStep a b) acc).2.2 = .num q)
            ∨ (is.foldl (cosineStep a b) acc).2.2 = .nan) := by
      intro is
      induction is with
      | nil => intro acc h₁ h₂ h₃; exact ⟨h₁, h₂, h₃⟩
      | cons i is ih =>
        intro acc h₁ h₂ h₃
        apply ih
        · show (cosineStep a b acc i).1 = .num 0 ∨ (cosineStep a b acc i).1 = .nan
          simp only [cosineStep, getD_eq_zero_of_all_zero a ha i]
          cases hbi : b[i]? with
          | some y =>
            rcases h₁ with h₁ | h₁ <;> rw [h₁] <;> simp [jmul, jadd]
          | none =>
            rcases h₁ with h₁ | h₁ <;> rw [h₁] <;> simp [jmul, jadd]
        · show (cosineStep a b acc i).2.1 = .num 0
          simp only [cosineStep, getD_eq_zero_of_all_zero a ha i]
          rw [h₂]
          simp [jmul, jadd]
        · show (∃ q, (cosineStep a b acc i).2.2 = .num q) ∨ (cosineStep a b acc i).2.2 = .nan
          simp only [cosineStep]
          cases hbi : b[i]? with
          | some y =>
            rcases h₃ with ⟨q, h₃⟩ | h₃ <;> rw [h₃] <;> simp [jmul, jadd]
          | none =>
            rcases h₃ with ⟨q, h₃⟩ | h₃ <;> rw [h₃] <;> simp [jmul, jadd]
    obtain ⟨h₁, h₂, h₃⟩ := key (List.range a.length) (.num 0, .num 0, .num 0)
      (Or.inl rfl) rfl (Or.inl ⟨0, rfl⟩)
    exact jdiv_sqrt_zero sqrt hs _ _ _ h₁ (Or.inl ⟨Or.inl h₂, h₃⟩)
  · have hbz : ∀ (i : Nat) (y : ℚ), b[i]? = some y → y = 0 := by
      intro i y hy
      exact hb y (List.getElem?_mem hy)
    have key : ∀ (is : List Nat) (acc : JSNum × JSNum × JSNum),
        (acc.1 = .num 0 ∨ acc.1 = .nan) → ((∃ q, acc.2.1 = .num q) ∨ acc.2.1 = .nan) →
        (acc.2.2 = .num 0 ∨ acc.2.2 = .nan) →
        ((is.foldl (cosineStep a b) acc).1 = .num 0 ∨ (is.foldl (cosineStep a b) acc).1 = .nan)
        ∧ ((∃ q, (is.foldl (cosineStep a b) acc).2.1 = .num q)
            ∨ (is.foldl (cosineStep a b) acc).2.1 = .nan)
        ∧ ((is.foldl (cosineStep a b) acc).2.2 = .num 0
            ∨ (is.foldl (cosineStep a b) acc).2.2 = .nan) := by
      intro is
      induction is with
      | nil => intro acc h₁ h₂ h₃; exact ⟨h₁, h₂, h₃⟩
      | cons i is ih =>
        intro acc h₁ h₂ h₃
        apply ih
        · show (cosineStep a b acc i).1 = .num 0 ∨ (cosineStep a b acc i).1 = .nan
          simp only [cosineStep]
          cases hbi : b[i]? with
          | some y =>
            rw [hbz i y hbi]
            rcases h₁ with h₁ | h₁ <;> rw [h₁] <;> simp [jmul, jadd]
          | none =>
            rcases h₁ with h₁ | h₁ <;> rw [h₁] <;> simp [jmul, jadd]
        · show (∃ q, (cosineStep a b acc i).2.1 = .num q) ∨ (cosineStep a b acc i).2.1 = .nan
          simp only [cosineStep]
          rcases h₂ with ⟨q, h₂⟩ | h₂ <;> rw [h₂] <;> simp [jmul, jadd]
        · show (cosineStep a b acc i).2.2 = .num 0 ∨ (cosineStep a b acc i).2.2 = .nan
          simp only [cosineStep]
          cases hbi : b[i]? with
          | some y =>
            rw [hbz i y hbi]
            rcases h₃ with h₃ | h₃ <;> rw [h₃] <;> simp [jmul, jadd]
          | none =>
            rcases h₃ with h₃ | h₃ <;> rw [h₃] <;> simp [jmul, jadd]
    obtain ⟨h₁, h₂, h₃⟩ := key (List.range a.length) (.num 0, .num 0, .num 0)
      (Or.inl rfl) (Or.inl ⟨0, rfl⟩) (Or.inl rfl)
    exact jdiv_sqrt_zero sqrt hs _ _ _ h₁ (Or.inr ⟨h₃, h₂⟩)

/-- C9.  The cosine similarity is unguarded against zero-norm vectors: for
any query or stored embedding whose entries are all zero the division is
`0 / 0` and the computed similarity is `NaN`; and such `NaN`-scored entries
do reach search results, as the concrete run over a store holding one
zero-embedding interaction shows. -/
theorem cosineSimilarity_zero_norm_nan (sqrt : ℚ → ℚ) (a b : List ℚ)
    (hs : sqrt 0 = 0) (hz : (∀ x ∈ a, x = 0) ∨ (∀ x ∈ b, x = 0)) :
    cosineSimilarity sqrt a b = .nan
    ∧ (searchMemories zeroSqrt stC9 queryC9 (some "u") 5).map
        (fun r => r.similarity) = [JSNum.nan] := by
  constructor
  · exact cosineSimilarity_allZero sqrt hs a b hz
  · have hsim : cosineSimilarity zeroSqrt queryC9 (decompressEmbedding [0]) = .nan :=
      cosineSimilarity_allZero zeroSqrt rfl _ _ (Or.inl (by decide))
    simp [searchMemories, personalSearchResults, relationshipSearchResults, eventSearchResults,
      stC9, getKey?, hasSubstr, stableSortBy, insStable, hsim]

/-- C2.  `autoProcessConversation` passes its arguments to the store helpers
shifted: for user `Alice` and agent `Vanilla`, with an evaluation extracting
the fact `likes tea` of category `preferences` (sentiment `positive`,
summary `had a nice chat`), nothing is stored for `Alice` and no
`Alice-Vanilla` relationship appears; instead a personal record keyed by the
fact text `likes tea` holds the category name `preferences` as content of
category `general`, and a relationship keyed `Vanilla-had a nice chat` holds
the sentiment word `positive` as content with the default sentiment
`neutral`. -/
theorem autoProcess_swapped_arguments :
    getKey? "Alice" stC2.personal = none
    ∧ getKey? "Alice-Vanilla" stC2.relationships = none
    ∧ (getKey? "likes tea" stC2.personal).map (fun r =>
        (getKey? "general" r).map (fun l => l.map (fun m => m.content)))
      = some (some ["preferences"])
    ∧ (getKey? "Vanilla-had a nice chat" stC2.relationships).map (fun r =>
        r.interactions.map (fun i => (i.content, i.sentiment)))
      = some [("positive", "neutral")] := by
  refine ⟨by decide, by decide, by decide, by decide⟩

/-! ## Witnesses -/

/-- Witness for C5: on a thread whose two checkpoints both live in namespace
`A`, `get (t, A)` without an id returns the newest checkpoint `2`. -/
theorem getTuple_latest_of_thread_witness :
    ∃ tu, getTuple loadsCp0 loadsMd0 loadsW0 stW5 "t" "A" none = some tu
      ∧ tu.config = ("t", "A", "2") :=
  ((getTuple_latest_of_thread loadsCp0 loadsMd0 loadsW0 stW5 "t" "A").2
    ⟨"t", "A", "2", some "1", "json", "cp", "md"⟩ (by decide) (by decide) (by decide)).1
    (Or.inr rfl)

/-- Witness for C8: a tag mismatch errors; matching tags write the record
and return the new configuration. -/
theorem put_tag_mismatch_iff_witness :
    (put dumpsCpMis dumpsW0 st0 "t" "" none ⟨"c2", "x"⟩ "m"
        = .error "Failed to serialize checkpoint and metadata to the same type.")
    ∧ (∃ st₂, put dumpsCpOk dumpsW0 st0 "t" "" none ⟨"c2", "x"⟩ "m"
          = .ok (st₂, ("t", "", "c2"))
        ∧ st₂.checkpointWrites = st0.checkpointWrites
        ∧ st₂.checkpoints.countP
            (fun c => (c.thread_id = "t" : Bool) && (c.checkpoint_id = "c2" : Bool)) = 1
        ∧ st₂.checkpoints.filter
            (fun c => !((c.thread_id = "t" : Bool) && (c.checkpoint_id = "c2" : Bool)))
          = st0.checkpoints.filter
            (fun c => !((c.thread_id = "t" : Bool) && (c.checkpoint_id = "c2" : Bool)))) :=
  ⟨(put_tag_mismatch_iff dumpsCpMis dumpsW0 st0 "t" "" none ⟨"c2", "x"⟩ "m").1 (by decide),
    (put_tag_mismatch_iff dumpsCpOk dumpsW0 st0 "t" "" none ⟨"c2", "x"⟩ "m").2 rfl⟩

/-- Witness for C3: a thread whose only checkpoint is from the epoch is
reaped by a 30-day retention run, with positive counts. -/
theorem cleanup_reaps_old_threads_only_witness :
    (∀ c ∈ (cleanupCheckpointsByAge dbC3 2592010 30).1.checkpoints, c.thread_id ≠ "t")
    ∧ (∀ w ∈ (cleanupCheckpointsByAge dbC3 2592010 30).1.checkpoint_writes, w.thread_id ≠ "t")
    ∧ 0 < (cleanupCheckpointsByAge dbC3 2592010 30).2.1
    ∧ 0 < (cleanupCheckpointsByAge dbC3 2592010 30).2.2.1 := by
  have h := (cleanup_reaps_old_threads_only dbC3 2592010 30 "t").1
    ⟨⟨"t", "c1", some 0⟩, by decide, rfl⟩ (by decide)
  exact ⟨h.1, h.2.1, h.2.2.1, h.2.2.2 ⟨⟨"t", 0⟩, by decide, rfl⟩⟩

/-- Witness for C6: the round-trip properties at a concrete embedding of
length 16. -/
theorem compress_decompress_roundtrip_witness :
    (embC6.length % 8 = 0)
    ∧ ((decompressEmbedding (compressEmbedding embC6)).length = embC6.length
      ∧ (∀ k, 8 * k < embC6.length →
          (decompressEmbedding (compressEmbedding embC6)).getD (8 * k) 0
            = embC6.getD (8 * k) 0)
      ∧ (∀ k j, 1 ≤ j → j ≤ 7 → 8 * (k + 1) < embC6.length →
          min (embC6.getD (8 * k) 0) (embC6.getD (8 * (k + 1)) 0)
              ≤ (decompressEmbedding (compressEmbedding embC6)).getD (8 * k + j) 0
          ∧ (decompressEmbedding (compressEmbedding embC6)).getD (8 * k + j) 0
              ≤ max (embC6.getD (8 * k) 0) (embC6.getD (8 * (k + 1)) 0))
      ∧ (∀ k j, 1 ≤ j → j ≤ 7 → 8 * (k + 1) = embC6.length →
          (decompressEmbedding (compressEmbedding embC6)).getD (8 * k + j) 0
            = embC6.getD (8 * k) 0)) :=
  ⟨by decide, compress_decompress_roundtrip embC6 (by decide)⟩

/-- Witness for C7: re-storing `I LIKE TEA` for a user already holding
`I like tea` in `facts` is rejected as a duplicate without touching the
store or computing an embedding. -/
theorem storePersonal_duplicate_witness :
    (∃ m ∈ categoryArrayOf stC7 "u" "facts", jsToLower m.content = jsToLower "I LIKE TEA")
    ∧ ((storePersonalMemory embedNil 5 stC7 "u" "I LIKE TEA" "facts").1 = "duplicate"
      ∧ (storePersonalMemory embedNil 5 stC7 "u" "I LIKE TEA" "facts").2.1 = stC7
      ∧ (storePersonalMemory embedNil 5 stC7 "u" "I LIKE TEA" "facts").2.2 = 0) :=
  ⟨by decide, storePersonal_duplicate embedNil 5 stC7 "u" "I LIKE TEA" "facts" (by decide)⟩

/-- Witness for C10: storing under the default category `general` for a
user with a fresh record. -/
theorem storePersonal_unknown_category_witness :
    ("general" ∉ fixedCategories)
    ∧ getKey? "u" stC10.personal = some emptyPersonalRecord
    ∧ getKey? "general" emptyPersonalRecord = none
    ∧ ((storePersonalMemory embedNil 7 stC10 "u" "likes cats" "general").1 = toString 7
      ∧ getKey? "u" (storePersonalMemory embedNil 7 stC10 "u" "likes cats" "general").2.1.personal
          = some (setKey "general"
              [⟨toString 7, "likes cats", "general", 7,
                compressEmbedding (embedNil "likes cats")⟩] emptyPersonalRecord)
      ∧ getKey? "general" (setKey "general"
            [⟨toString 7, "likes cats", "general", 7,
              compressEmbedding (embedNil "likes cats")⟩] emptyPersonalRecord)
          = some [⟨toString 7, "likes cats", "general", 7,
              compressEmbedding (embedNil "likes cats")⟩]
      ∧ (∀ sqrt q uq lim,
          searchMemories sqrt
              (storePersonalMemory embedNil 7 stC10 "u" "likes cats" "general").2.1 q uq lim
            = searchMemories sqrt stC10 q uq lim)
      ∧ (∀ monthAgo,
          getKey? "general" ((getKey? "u"
              (cleanupOldMemories monthAgo
                (storePersonalMemory embedNil 7 stC10 "u" "likes cats" "general").2.1).personal).getD [])
            = some [⟨toString 7, "likes cats", "general", 7,
                compressEmbedding (embedNil "likes cats")⟩])) :=
  ⟨by decide, by decide, by decide,
    storePersonal_unknown_category embedNil 7 stC10 "u" "likes cats" "general"
      emptyPersonalRecord (by decide) (by decide) (by decide)⟩

/-- Witness for C9: the all-zero width-8 query against any stored vector. -/
theorem cosineSimilarity_zero_norm_nan_witness :
    (zeroSqrt 0 = 0)
    ∧ (∀ x ∈ queryC9, x = 0)
    ∧ (cosineSimilarity zeroSqrt queryC9 [1] = .nan
      ∧ (searchMemories zeroSqrt stC9 queryC9 (some "u") 5).map
          (fun r => r.similarity) = [JSNum.nan]) :=
  ⟨rfl, by decide,
    cosineSimilarity_zero_norm_nan zeroSqrt queryC9 [1] rfl (Or.inl (by decide))⟩

end Vanilla
